import Mathlib

/-!
Verification of the release-runner engine in `make_release.py` and the
`csv2df` wrapper in `clevercsv/wrappers.py`, as a shallow embedding.

Python dictionaries become association lists, exceptions become an
`Except` result, and operator-visible side effects (prints, confirmation
waits, spawned commands, file reads) become explicit event traces where a
claim depends on them.
-/

/-- The mutable `context` dictionary of `main`: keys and values are strings. -/
abbrev Ctx := List (String × String)

/-- Dictionary lookup, `context[k]`: the value at the first matching key. -/
def ctxGet (c : Ctx) (k : String) : Option String :=
  (c.find? (fun p => p.fst == k)).map Prod.snd

/-- Dictionary assignment `context[k] = v`: overwrite in place when the key
exists, append otherwise. -/
def ctxSet (c : Ctx) (k v : String) : Ctx :=
  if c.any (fun p => p.fst == k) then
    c.map (fun p => if p.fst == k then (k, v) else p)
  else
    c ++ [(k, v)]

/-- Exceptions that flow through the engine: `KeyboardInterrupt`,
`SystemExit(code)`, and any other propagating error. -/
inductive Sig
  | keyboardInterrupt
  | systemExit (code : Nat)
  | otherError (msg : String)
  deriving Repr, DecidableEq

/-- A `Step` in the embedding: the three lifecycle phases `pre`, `action`,
`post`, each reading the context and either returning an updated context or
raising an exception. The base-class defaults (`pre` a no-op, `post` a
confirmation wait) are instances of this shape. -/
structure PyStep where
  pre : Ctx → Except Sig Ctx
  action : Ctx → Except Sig Ctx
  post : Ctx → Except Sig Ctx

/-- The body of the `try` block in `Step.run`: `pre`, then `action`, then
`post`, each on the context produced so far; the first exception propagates. -/
def stepPhases (s : PyStep) (c : Ctx) : Except Sig Ctx :=
  match s.pre c with
  | Except.error e => Except.error e
  | Except.ok c1 =>
    match s.action c1 with
    | Except.error e => Except.error e
    | Except.ok c2 => s.post c2

/-- Method `Step.run`: the phases wrapped in
`try ... except KeyboardInterrupt: raise SystemExit(1)`.
Only `KeyboardInterrupt` is caught; every other exception passes through. -/
def stepRun (s : PyStep) (c : Ctx) : Except Sig Ctx :=
  match stepPhases s c with
  | Except.error Sig.keyboardInterrupt => Except.error (Sig.systemExit 1)
  | r => r

/-- The Python comparison `name == target` in the loop of `main`: `target`
is `None` or a string; a string never equals `None`. -/
def matchesTarget (name : String) : Option String → Bool
  | none => false
  | some t => name == t

/-- Initialization `skip = True if target else False`: truthiness of the target, so `None`
and the empty string both give `False`. -/
def targetTruthy : Option String → Bool
  | none => false
  | some s => !(s == "")

/-- The `for name, step in procedure` loop of `main` with the current value
of the `skip` flag: an entry is skipped while `skip` holds and its name
differs from the target; otherwise `skip` is cleared and `step.run` is
called, aborting the loop if it raises. Returns the names run and either
the final context or the propagated exception. -/
def runFrom (target : Option String) : Bool → List (String × PyStep) → Ctx →
    List String × Except Sig Ctx
  | _, [], c => ([], Except.ok c)
  | skip, (name, s) :: rest, c =>
    if skip && !(matchesTarget name target) then
      runFrom target skip rest c
    else
      match stepRun s c with
      | Except.ok c1 =>
        (name :: (runFrom target false rest c1).fst,
          (runFrom target false rest c1).snd)
      | Except.error e => ([name], Except.error e)

/-- The runner part of `main(target)` on an already seeded context:
initialize the skip flag from the truthiness of `target` and iterate the
procedure. -/
def execute (procedure : List (String × PyStep)) (target : Option String)
    (c : Ctx) : List String × Except Sig Ctx :=
  runFrom target (targetTruthy target) procedure c

/-- A step all of whose phases succeed without touching the context. -/
def okStep : PyStep :=
  { pre := fun c => Except.ok c
    action := fun c => Except.ok c
    post := fun c => Except.ok c }

/-- A step whose action raises `KeyboardInterrupt`. -/
def interruptStep : PyStep :=
  { pre := fun c => Except.ok c
    action := fun _ => Except.error Sig.keyboardInterrupt
    post := fun c => Except.ok c }

/-- A step whose `post` phase records a value into the context, like
`BumpVersionPackage.post` overwriting `version`. -/
def setterStep : PyStep :=
  { pre := fun c => Except.ok c
    action := fun c => Except.ok c
    post := fun c => Except.ok (ctxSet c "version" "9.9") }

/-- Operator-visible events for the parts of the code where ordering of
side effects matters: a printed message, the blocking
`input("Press Enter to continue")` of `wait_for_enter`, a spawned command
(`os.system`), a context assignment, and a file read. -/
inductive Ev
  | printMsg (msg : String)
  | waitEnter
  | runCmd (cmd : String)
  | setCtx (key val : String)
  | readFile (f : String)
  deriving Repr, DecidableEq

/-- Python exceptions raised by the wrapper and resolver code. -/
inductive PyErr
  | valueError (msg : String)
  | keyError (key : String)
  deriving Repr, DecidableEq

/-- Python `s.strip()`: remove leading and trailing whitespace. Strings are
handled as character lists so that terms evaluate inside the kernel. -/
def pyStrip (cs : List Char) : List Char :=
  ((cs.dropWhile Char.isWhitespace).reverse.dropWhile Char.isWhitespace).reverse

/-- Python `s.strip(c)` for the quote character: remove every leading and
trailing double quote. -/
def stripQuotes (cs : List Char) : List Char :=
  ((cs.dropWhile (fun ch => ch == '"')).reverse.dropWhile
    (fun ch => ch == '"')).reverse

/-- Function `get_package_name`, over the lines of `setup.py`:
`next((l.strip() for l in fp if l.startswith("NAME = ")), None)` followed by
`nameline.split("=")[-1].strip().strip()` of the quotes. When no line starts
with the pattern, `nameline` is `None` and the `.split` call raises
(`AttributeError`); that failure is the `none` result here. -/
def get_package_name (setupLines : List String) : Option String :=
  match setupLines.find? (fun l => ("NAME = ".toList).isPrefixOf l.toList) with
  | none => none
  | some l =>
    some (String.mk
      (stripQuotes (pyStrip (((pyStrip l.toList).splitOn '=').getLastD []))))

/-- Function `get_package_version`: the source runs `exec` on the version file and
reads `ctx["__version__"]`. The executed file is abstracted into the
binding environment it produces; a missing `__version__` key raises
`KeyError`, the `none` result here. -/
def get_package_version (versionBindings : List (String × String)) :
    Option String :=
  (versionBindings.find? (fun b => b.fst == "__version__")).map Prod.snd

/-- The failure modes of seeding the context in `main`: the
`AttributeError` from `get_package_name` finding no `NAME = ` line, and the
`KeyError` from `get_package_version` finding no `__version__` binding. -/
inductive MetaErr
  | nameAttributeError
  | versionKeyError
  deriving Repr, DecidableEq

/-- How a call to `main` ends: a metadata failure before the loop, an
exception propagated out of a step, or normal completion, which is the only
path that reaches the final `cprint("Done!")`. -/
inductive MainOutcome
  | metaFailure (e : MetaErr)
  | sigRaised (s : Sig)
  | completed (c : Ctx)
  deriving Repr, DecidableEq

/-- Function `main(target)`: seed `context["pkgname"]` and `context["version"]` from
the project files, then run the loop; the completion message is emitted
exactly when the loop returns normally. The names of the steps that ran are
returned alongside the outcome. -/
def pymain (setupLines : List String)
    (versionBindings : List (String × String))
    (procedure : List (String × PyStep)) (target : Option String) :
    List String × MainOutcome :=
  match get_package_name setupLines with
  | none => ([], MainOutcome.metaFailure MetaErr.nameAttributeError)
  | some pkg =>
    match get_package_version versionBindings with
    | none => ([], MainOutcome.metaFailure MetaErr.versionKeyError)
    | some ver =>
      match runFrom target (targetTruthy target) procedure
          (ctxSet (ctxSet [] "pkgname" pkg) "version" ver) with
      | (ns, Except.ok cf) => (ns, MainOutcome.completed cf)
      | (ns, Except.error e) => (ns, MainOutcome.sigRaised e)

/-- Method `BumpVersionPackage.post`: `wait_for_enter()` and then
`context["version"] = self._get_version(context)`, which re-reads the
version file. The version file is abstracted into its binding environment,
and the event trace records the order of the wait and the capture. -/
def bumpVersionPost (versionBindings : List (String × String)) (c : Ctx) :
    List Ev × Except PyErr Ctx :=
  match get_package_version versionBindings with
  | some v =>
    ([Ev.waitEnter, Ev.setCtx "version" v], Except.ok (ctxSet c "version" v))
  | none => ([Ev.waitEnter], Except.error (PyErr.keyError "__version__"))

/-- Method `Step.do_cmd`: print the command, wait for confirmation, then
`os.system(cmd)`. The spawned command is modelled by an oracle giving its
exit status; the status it returns is bound and then discarded, exactly as
the source discards the result of `os.system`. -/
def do_cmd (sys : String → Int) (cmd : String) : List Ev :=
  let _status : Int := sys cmd
  [Ev.printMsg ("Going to run: " ++ cmd), Ev.waitEnter, Ev.runCmd cmd]

/-- Function `csv2df`: raise `ValueError` unless the filename exists and is a
regular file; otherwise read the file (for `get_encoding`, for dialect
detection, and for `pandas.read_csv`). The filesystem is modelled by the
two oracles `os.path.exists` and `os.path.isfile`. -/
def csv2df (pathExists isFile : String → Bool) (filename : String) :
    List Ev × Except PyErr Unit :=
  if !(pathExists filename && isFile filename) then
    ([], Except.error (PyErr.valueError "Filename must be a regular file"))
  else
    ([Ev.readFile filename, Ev.readFile filename, Ev.readFile filename],
      Except.ok ())

-- Unfolding equations for `runFrom`.

theorem runFrom_nil (target : Option String) (skip : Bool) (c : Ctx) :
    runFrom target skip [] c = ([], Except.ok c) := rfl

theorem runFrom_cons (target : Option String) (skip : Bool) (name : String)
    (s : PyStep) (rest : List (String × PyStep)) (c : Ctx) :
    runFrom target skip ((name, s) :: rest) c =
      if skip && !(matchesTarget name target) then
        runFrom target skip rest c
      else
        match stepRun s c with
        | Except.ok c1 =>
          (name :: (runFrom target false rest c1).fst,
            (runFrom target false rest c1).snd)
        | Except.error e => ([name], Except.error e) := by
  rw [runFrom]

/-- With the skip flag cleared and every step succeeding, the loop runs
every entry in order and ends with some final context. -/
theorem runFrom_all_ok (target : Option String)
    (P : List (String × PyStep))
    (hok : ∀ e ∈ P, ∀ d : Ctx, ∃ d1, stepRun e.snd d = Except.ok d1) :
    ∀ c : Ctx, (runFrom target false P c).fst = P.map Prod.fst ∧
      ∃ cf, (runFrom target false P c).snd = Except.ok cf := by
  induction P with
  | nil => intro c; exact ⟨rfl, ⟨c, rfl⟩⟩
  | cons e rest ih =>
    intro c
    obtain ⟨n, s⟩ := e
    obtain ⟨c1, hc1⟩ := hok (n, s) (List.mem_cons_self _ _) c
    have hrest : ∀ e ∈ rest, ∀ d : Ctx, ∃ d1, stepRun e.snd d = Except.ok d1 :=
      fun e he => hok e (List.mem_cons_of_mem _ he)
    have ihc := ih hrest c1
    rw [runFrom_cons]
    simp only [Bool.false_and, Bool.false_eq_true, if_false, hc1]
    exact ⟨by simp [ihc.1], ihc.2⟩

/-- While the skip flag holds and no entry name matches the target, every
entry is skipped and the context is untouched. -/
theorem runFrom_skip_all (target : Option String)
    (P : List (String × PyStep)) (c : Ctx)
    (h : ∀ e ∈ P, matchesTarget e.fst target = false) :
    runFrom target true P c = ([], Except.ok c) := by
  induction P with
  | nil => rfl
  | cons e rest ih =>
    obtain ⟨n, s⟩ := e
    rw [runFrom_cons]
    have hn : matchesTarget n target = false := h (n, s) (List.mem_cons_self _ _)
    simp only [hn, Bool.not_false, Bool.and_true, if_true]
    exact ih (fun e he => h e (List.mem_cons_of_mem _ he))

/-- With the skip flag set and a nonempty target that occurs among the
names, the loop runs exactly the suffix starting at the first entry whose
name is the target, provided every step succeeds. -/
theorem runFrom_resume_suffix (t : String) (P : List (String × PyStep))
    (hok : ∀ e ∈ P, ∀ d : Ctx, ∃ d1, stepRun e.snd d = Except.ok d1)
    (hmem : t ∈ P.map Prod.fst) :
    ∀ c : Ctx, (runFrom (some t) true P c).fst =
      (P.map Prod.fst).drop ((P.map Prod.fst).indexOf t) := by
  induction P with
  | nil => simp at hmem
  | cons e rest ih =>
    intro c
    obtain ⟨n, s⟩ := e
    rw [runFrom_cons]
    by_cases hn : n = t
    · subst hn
      have hmatch : matchesTarget n (some n) = true := by
        simp [matchesTarget]
      obtain ⟨c1, hc1⟩ := hok (n, s) (List.mem_cons_self _ _) c
      have hrest : ∀ e ∈ rest, ∀ d : Ctx, ∃ d1, stepRun e.snd d = Except.ok d1 :=
        fun e he => hok e (List.mem_cons_of_mem _ he)
      have hall := runFrom_all_ok (some n) rest hrest c1
      simp only [hmatch, Bool.not_true, Bool.and_false, Bool.false_eq_true,
        if_false, hc1]
      simp [hall.1, List.indexOf_cons_self]
    · have hmatch : matchesTarget n (some t) = false := by
        simp [matchesTarget, hn]
      have hmem1 : t ∈ rest.map Prod.fst := by
        rcases List.mem_cons.mp hmem with h | h
        · exact absurd h.symm hn
        · exact h
      have hrest : ∀ e ∈ rest, ∀ d : Ctx, ∃ d1, stepRun e.snd d = Except.ok d1 :=
        fun e he => hok e (List.mem_cons_of_mem _ he)
      simp only [hmatch, Bool.not_false, Bool.and_true, if_true]
      rw [ih hrest hmem1 c]
      rw [List.map_cons, List.indexOf_cons_ne _ hn, List.drop_succ_cons]

/-- A step whose phases all succeed unchanged runs successfully. -/
theorem stepRun_okStep (d : Ctx) : stepRun okStep d = Except.ok d := rfl

/-- C1, as stated, fails on the empty-string target: in the procedure
[("a", _), ("", _)] the names are unique and the target "" names the last
entry, yet `skip = True if target else False` starts false, so `run` is
called on the entry "a" before the entry named "", not only on the suffix
starting at "". -/
theorem exec_target_empty_counterexample :
    (["a", ""] : List String).Nodup ∧
    ("" ∈ (["a", ""] : List String)) ∧
    (execute [("a", okStep), ("", okStep)] (some "") []).fst = ["a", ""] ∧
    (["a", ""] : List String) ≠
      (["a", ""] : List String).drop ((["a", ""] : List String).indexOf "") := by
  refine ⟨by decide, by decide, rfl, by decide⟩

/-- C1 (amended to nonempty targets): for every procedure with unique entry
names, every nonempty target equal to the name of some entry, and steps
whose run succeeds, execution calls run on exactly the contiguous suffix of
the procedure starting at the entry named by the target, in order, and on
no entry before it. -/
theorem exec_target_suffix (P : List (String × PyStep)) (t : String)
    (c : Ctx)
    (hok : ∀ e ∈ P, ∀ d : Ctx, ∃ d1, stepRun e.snd d = Except.ok d1)
    (_hnodup : (P.map Prod.fst).Nodup)
    (ht : t ≠ "") (hmem : t ∈ P.map Prod.fst) :
    (execute P (some t) c).fst =
      (P.map Prod.fst).drop ((P.map Prod.fst).indexOf t) := by
  have htr : targetTruthy (some t) = true := by
    simp [targetTruthy, ht]
  unfold execute
  rw [htr]
  exact runFrom_resume_suffix t P hok hmem c

/-- Witness for the amended C1 at a concrete two-entry procedure. -/
theorem exec_target_suffix_witness :
    (execute [("a", okStep), ("b", okStep)] (some "b") []).fst = ["b"] := by
  have h := exec_target_suffix [("a", okStep), ("b", okStep)] "b" []
    (by
      intro e he d
      simp only [List.mem_cons, List.mem_singleton] at he
      rcases he with h1 | h1 | h1
      · exact ⟨d, by rw [h1]; exact stepRun_okStep d⟩
      · exact ⟨d, by rw [h1]; exact stepRun_okStep d⟩
      · simp at h1)
    (by decide) (by decide) (by decide)
  exact h.trans (by decide)

/-- C2: with no target supplied, execution calls run on every entry of the
procedure, in the original order, exactly once each (each entry occurs in
the run list with its multiplicity), provided every step run succeeds. -/
theorem exec_no_target_runs_all (P : List (String × PyStep)) (c : Ctx)
    (hok : ∀ e ∈ P, ∀ d : Ctx, ∃ d1, stepRun e.snd d = Except.ok d1) :
    (execute P none c).fst = P.map Prod.fst :=
  (runFrom_all_ok none P hok c).1

/-- Witness for C2 at a concrete one-entry procedure. -/
theorem exec_no_target_runs_all_witness :
    (execute [("a", okStep)] none []).fst = ["a"] :=
  exec_no_target_runs_all [("a", okStep)] []
    (by
      intro e he d
      simp only [List.mem_singleton] at he
      exact ⟨d, by rw [he]; exact stepRun_okStep d⟩)

/-- C3, as stated, fails on the empty-string target: "" is non-null and
matches no entry name of [("a", _)], yet execution runs the entry "a"
rather than zero entries, because the skip flag tests truthiness rather
than non-nullness. -/
theorem exec_absent_empty_target_counterexample :
    (some "" ≠ (none : Option String)) ∧
    ("" ∉ (["a"] : List String)) ∧
    (execute [("a", okStep)] (some "") []).fst = ["a"] := by
  refine ⟨by decide, by decide, rfl⟩

/-- C3 (amended to nonempty targets): for every nonempty target matching no
entry name, execution calls run on zero entries, terminates normally, and
still emits the completion signal, given that the metadata seeding
succeeded. -/
theorem exec_absent_target_noop (sl : List String)
    (vb : List (String × String)) (P : List (String × PyStep)) (t : String)
    (pkg ver : String)
    (hname : get_package_name sl = some pkg)
    (hver : get_package_version vb = some ver)
    (ht : t ≠ "") (habs : t ∉ P.map Prod.fst) :
    (pymain sl vb P (some t)).fst = [] ∧
    ∃ cf, (pymain sl vb P (some t)).snd = MainOutcome.completed cf := by
  have htr : targetTruthy (some t) = true := by
    simp [targetTruthy, ht]
  have hnomatch : ∀ e ∈ P, matchesTarget e.fst (some t) = false := by
    intro e he
    have : e.fst ≠ t := by
      intro hEq
      exact habs (hEq ▸ List.mem_map_of_mem Prod.fst he)
    simp [matchesTarget, this]
  have hskip := runFrom_skip_all (some t) P
    (ctxSet (ctxSet [] "pkgname" pkg) "version" ver) hnomatch
  simp only [pymain, hname, hver, htr, hskip]
  exact ⟨trivial, ⟨_, rfl⟩⟩

/-- Witness for the amended C3 at a concrete procedure and target. -/
theorem exec_absent_target_noop_witness :
    (pymain ["NAME = \"demo\""] [("__version__", "1.2.3")]
        [("a", okStep)] (some "z")).fst = [] ∧
    ∃ cf, (pymain ["NAME = \"demo\""] [("__version__", "1.2.3")]
        [("a", okStep)] (some "z")).snd = MainOutcome.completed cf :=
  exec_absent_target_noop ["NAME = \"demo\""] [("__version__", "1.2.3")]
    [("a", okStep)] "z" "demo" "1.2.3" (by decide) (by decide) (by decide)
    (by decide)

/-- C4, as stated, fails on the empty-string target: the skip flag is
initialized by truthiness, so for the empty string, which is not None, it
starts false rather than true. -/
theorem skip_init_empty_string_counterexample :
    (some "" ≠ (none : Option String)) ∧ targetTruthy (some "") = false := by
  refine ⟨by decide, rfl⟩

/-- C4 (amended): the skip flag is initialized to true iff the target is
truthy, that is, present and nonempty; when the target is omitted the flag
starts false, so the runner starts from the first entry. -/
theorem skip_init_truthy :
    targetTruthy none = false ∧
    ∀ s : String, targetTruthy (some s) = !(s == "") :=
  ⟨rfl, fun _ => rfl⟩

/-- Witness for the amended C4 at concrete targets. -/
theorem skip_init_truthy_witness :
    targetTruthy none = false ∧ targetTruthy (some "bumpversion") = true := by
  refine ⟨skip_init_truthy.1, ?_⟩
  rw [skip_init_truthy.2 "bumpversion"]
  decide

/-- C5: an operator interrupt raised during the phases of a step run is
caught by the Step itself and converted to `SystemExit(1)`, and the runner
then propagates that abort without invoking run on any later entry: the
interrupted entry is the last name run and the loop result is the abort
signal, whatever entries follow. -/
theorem interrupt_aborts_run (s : PyStep) (c : Ctx) (name : String)
    (rest : List (String × PyStep)) (target : Option String)
    (h : stepPhases s c = Except.error Sig.keyboardInterrupt) :
    stepRun s c = Except.error (Sig.systemExit 1) ∧
    runFrom target false ((name, s) :: rest) c =
      ([name], Except.error (Sig.systemExit 1)) := by
  have hrun : stepRun s c = Except.error (Sig.systemExit 1) := by
    unfold stepRun
    rw [h]
  refine ⟨hrun, ?_⟩
  rw [runFrom_cons]
  simp only [Bool.false_and, Bool.false_eq_true, if_false, hrun]

/-- Witness for C5: a concrete interrupted step aborts the remaining
procedure. -/
theorem interrupt_aborts_run_witness :
    stepRun interruptStep [] = Except.error (Sig.systemExit 1) ∧
    runFrom none false [("runtests", interruptStep), ("push1", okStep)] [] =
      (["runtests"], Except.error (Sig.systemExit 1)) :=
  interrupt_aborts_run interruptStep [] "runtests" [("push1", okStep)] none rfl

/-- C6, as stated, fails: the post phase of the version-capture step
produces the trace wait-then-capture, not capture-then-wait, because
`wait_for_enter()` precedes the assignment to `context` in the source. -/
theorem bump_post_order_counterexample :
    (bumpVersionPost [("__version__", "1.2.3")] []).fst =
      [Ev.waitEnter, Ev.setCtx "version" "1.2.3"] ∧
    [Ev.waitEnter, Ev.setCtx "version" "1.2.3"] ≠
      [Ev.setCtx "version" "1.2.3", Ev.waitEnter] := by
  refine ⟨rfl, by decide⟩

/-- C6 (amended): the post phase of the version-capture step first blocks
waiting for operator confirmation and then captures the derived state,
re-reading the version bindings and overwriting the version key of the
Context. -/
theorem bump_post_wait_then_capture (vb : List (String × String)) (c : Ctx)
    (v : String) (hv : get_package_version vb = some v) :
    bumpVersionPost vb c =
      ([Ev.waitEnter, Ev.setCtx "version" v],
        Except.ok (ctxSet c "version" v)) := by
  unfold bumpVersionPost
  rw [hv]

/-- Witness for the amended C6 at a concrete context and version file. -/
theorem bump_post_wait_then_capture_witness :
    bumpVersionPost [("__version__", "1.2.3")] [("pkgname", "demo")] =
      ([Ev.waitEnter, Ev.setCtx "version" "1.2.3"],
        Except.ok [("pkgname", "demo"), ("version", "1.2.3")]) :=
  (bump_post_wait_then_capture [("__version__", "1.2.3")]
    [("pkgname", "demo")] "1.2.3" (by decide)).trans rfl

/-- C7: the resolver fails exactly when the package-descriptor lines hold
no line starting with the name pattern, or the version bindings lack
`__version__`; and in either case `main` fails before any step runs, with
the run list empty and the outcome a metadata failure. -/
theorem metadata_notfound_cases (sl : List String)
    (vb : List (String × String)) (P : List (String × PyStep))
    (target : Option String) :
    ((get_package_name sl).isNone =
      sl.all (fun l => !(("NAME = ".toList).isPrefixOf l.toList))) ∧
    ((get_package_version vb).isNone =
      vb.all (fun b => !(b.fst == "__version__"))) ∧
    ((get_package_name sl = none ∨ get_package_version vb = none) →
      (pymain sl vb P target).fst = [] ∧
      ∃ e, (pymain sl vb P target).snd = MainOutcome.metaFailure e) := by
  refine ⟨?_, ?_, ?_⟩
  · rcases hfind : sl.find? (fun l => ("NAME = ".toList).isPrefixOf l.toList)
      with _ | l
    · simp only [get_package_name, hfind, Option.isNone]
      symm
      rw [List.all_eq_true]
      intro x hx
      have hx2 := List.find?_eq_none.mp hfind x hx
      simp only [Bool.not_eq_true] at hx2
      simpa using hx2
    · simp only [get_package_name, hfind, Option.isNone]
      symm
      rw [Bool.eq_false_iff]
      intro hall
      rw [List.all_eq_true] at hall
      have hmem := List.mem_of_find?_eq_some hfind
      have hp := List.find?_some hfind
      have hcontr := hall l hmem
      simp only [Bool.not_eq_eq_eq_not, Bool.not_true] at hcontr
      exact Bool.noConfusion (hp.symm.trans hcontr)
  · rcases hfind : vb.find? (fun b => b.fst == "__version__") with _ | b
    · simp only [get_package_version, hfind, Option.map, Option.isNone]
      symm
      rw [List.all_eq_true]
      intro x hx
      have hx2 := List.find?_eq_none.mp hfind x hx
      simp only [Bool.not_eq_true] at hx2
      simpa using hx2
    · simp only [get_package_version, hfind, Option.map, Option.isNone]
      symm
      rw [Bool.eq_false_iff]
      intro hall
      rw [List.all_eq_true] at hall
      have hmem := List.mem_of_find?_eq_some hfind
      have hp := List.find?_some hfind
      have hcontr := hall b hmem
      simp only [Bool.not_eq_eq_eq_not, Bool.not_true] at hcontr
      exact Bool.noConfusion (hp.symm.trans hcontr)
  · intro hor
    rcases hname : get_package_name sl with _ | pkg
    · simp only [pymain, hname]
      exact ⟨trivial, ⟨MetaErr.nameAttributeError, rfl⟩⟩
    · rcases hver : get_package_version vb with _ | ver
      · simp only [pymain, hname, hver]
        exact ⟨trivial, ⟨MetaErr.versionKeyError, rfl⟩⟩
      · exfalso
        rcases hor with h | h
        · rw [hname] at h
          exact Option.noConfusion h
        · rw [hver] at h
          exact Option.noConfusion h

/-- Witness for C7: a descriptor without the name line makes `main` fail
before running any step. -/
theorem metadata_notfound_cases_witness :
    (pymain ["x = 1"] [("__version__", "1.2.3")] [("a", okStep)] none).fst
      = [] ∧
    ∃ e, (pymain ["x = 1"] [("__version__", "1.2.3")] [("a", okStep)]
      none).snd = MainOutcome.metaFailure e :=
  (metadata_notfound_cases ["x = 1"] [("__version__", "1.2.3")]
    [("a", okStep)] none).2.2 (Or.inl (by decide))

/-- The loop threads the context: running a concatenation with the skip
flag cleared first runs the left part, and when that part ends normally the
right part runs on exactly the context the left part produced. -/
theorem runFrom_append (target : Option String)
    (P1 P2 : List (String × PyStep)) :
    ∀ c c1 : Ctx, (runFrom target false P1 c).snd = Except.ok c1 →
      runFrom target false (P1 ++ P2) c =
        ((runFrom target false P1 c).fst ++
          (runFrom target false P2 c1).fst,
          (runFrom target false P2 c1).snd) := by
  induction P1 with
  | nil =>
    intro c c1 h
    simp only [runFrom_nil] at h
    cases h
    simp [runFrom_nil]
  | cons e rest ih =>
    intro c c1 h
    obtain ⟨n, s⟩ := e
    rw [runFrom_cons] at h
    simp only [Bool.false_and, Bool.false_eq_true, if_false] at h
    rw [List.cons_append, runFrom_cons]
    simp only [Bool.false_and, Bool.false_eq_true, if_false]
    cases hs : stepRun s c with
    | ok c2 =>
      rw [hs] at h
      simp only at h
      rw [runFrom_cons]
      simp only [Bool.false_and, Bool.false_eq_true, if_false, hs]
      rw [ih c2 c1 h]
      simp
    | error e0 =>
      rw [hs] at h
      simp at h

/-- If a key holds a value at entry to the loop and every step of the
procedure leaves that key unchanged whenever its run succeeds, the key
holds the same value in the final context. -/
theorem runFrom_preserve (target : Option String) (k v : String) :
    ∀ (P : List (String × PyStep)) (c : Ctx), ctxGet c k = some v →
      (∀ e ∈ P, ∀ d d1 : Ctx, stepRun e.snd d = Except.ok d1 →
        ctxGet d1 k = ctxGet d k) →
      ∀ c2 : Ctx, (runFrom target false P c).snd = Except.ok c2 →
        ctxGet c2 k = some v := by
  intro P
  induction P with
  | nil =>
    intro c hc _ c2 h
    simp only [runFrom_nil] at h
    cases h
    exact hc
  | cons e rest ih =>
    intro c hc hpres c2 h
    obtain ⟨n, s⟩ := e
    rw [runFrom_cons] at h
    simp only [Bool.false_and, Bool.false_eq_true, if_false] at h
    cases hs : stepRun s c with
    | ok c1 =>
      rw [hs] at h
      simp only at h
      have hc1 : ctxGet c1 k = some v := by
        rw [hpres (n, s) (List.mem_cons_self _ _) c c1 hs]
        exact hc
      exact ih c1 hc1 (fun e he => hpres e (List.mem_cons_of_mem _ he)) c2 h
    | error e0 =>
      rw [hs] at h
      simp at h

/-- C8: the executed steps all operate on the single threaded context.
Splitting the procedure anywhere, the part after the split runs on exactly
the context produced by the part before it, with the names accumulating in
order; and a value recorded in the context at the split, for example by a
post phase, stays visible unmodified through every later step that does not
itself write the key. -/
theorem context_threading_visibility (target : Option String)
    (P1 P2 : List (String × PyStep)) (c c1 : Ctx) (k v : String)
    (h1 : (runFrom target false P1 c).snd = Except.ok c1)
    (h2 : ctxGet c1 k = some v)
    (hpres : ∀ e ∈ P2, ∀ d d1 : Ctx, stepRun e.snd d = Except.ok d1 →
      ctxGet d1 k = ctxGet d k) :
    (runFrom target false (P1 ++ P2) c).fst =
      (runFrom target false P1 c).fst ++ (runFrom target false P2 c1).fst ∧
    (runFrom target false (P1 ++ P2) c).snd =
      (runFrom target false P2 c1).snd ∧
    (∀ c2 : Ctx, (runFrom target false P2 c1).snd = Except.ok c2 →
      ctxGet c2 k = some v) := by
  have happ := runFrom_append target P1 P2 c c1 h1
  refine ⟨by rw [happ], by rw [happ], ?_⟩
  intro c2 hc2
  exact runFrom_preserve target k v P2 c1 h2 hpres c2 hc2

/-- Witness for C8: a post phase writes the version key and the later step
still sees it. -/
theorem context_threading_visibility_witness :
    (runFrom none false
        ([("bumpversion", setterStep)] ++ [("gitadd2", okStep)]) []).fst =
      (runFrom none false [("bumpversion", setterStep)] []).fst ++
        (runFrom none false [("gitadd2", okStep)] [("version", "9.9")]).fst ∧
    ctxGet [("version", "9.9")] "version" = some "9.9" := by
  have hpres : ∀ e ∈ [("gitadd2", okStep)], ∀ d d1 : Ctx,
      stepRun e.snd d = Except.ok d1 → ctxGet d1 "version" = ctxGet d "version" := by
    intro e he d d1 hd
    simp only [List.mem_singleton] at he
    rw [he] at hd
    rw [stepRun_okStep] at hd
    cases hd
    rfl
  have h := context_threading_visibility none [("bumpversion", setterStep)]
    [("gitadd2", okStep)] [] [("version", "9.9")] "version" "9.9" rfl rfl hpres
  exact ⟨h.1, h.2.2 [("version", "9.9")] rfl⟩

/-- C9: the engine does not inspect the exit status of a spawned command.
Two runs of `do_cmd` that differ only in the status the external command
returns produce identical operator-visible behavior. -/
theorem do_cmd_ignores_exit_status (sys1 sys2 : String → Int)
    (cmd : String) : do_cmd sys1 cmd = do_cmd sys2 cmd := rfl

/-- Witness for C9 at a succeeding and a failing command. -/
theorem do_cmd_ignores_exit_status_witness :
    do_cmd (fun _ => 0) "make test" = do_cmd (fun _ => 1) "make test" :=
  do_cmd_ignores_exit_status (fun _ => 0) (fun _ => 1) "make test"

/-- C10: `csv2df` raises `ValueError`, reading nothing, exactly when the
filename does not refer to an existing regular file; when it does, the
check passes and the file is read. -/
theorem csv2df_guard (pathExists isFile : String → Bool) (f : String) :
    ((pathExists f && isFile f) = false →
      csv2df pathExists isFile f =
        ([], Except.error (PyErr.valueError "Filename must be a regular file"))) ∧
    ((pathExists f && isFile f) = true →
      (csv2df pathExists isFile f).snd = Except.ok () ∧
      Ev.readFile f ∈ (csv2df pathExists isFile f).fst) := by
  constructor
  · intro h
    simp [csv2df, h]
  · intro h
    simp [csv2df, h]

/-- Witness for C10: a missing file is rejected unread, an existing regular
file is read. -/
theorem csv2df_guard_witness :
    csv2df (fun _ => false) (fun _ => true) "data.csv" =
      ([], Except.error (PyErr.valueError "Filename must be a regular file")) ∧
    Ev.readFile "data.csv" ∈
      (csv2df (fun _ => true) (fun _ => true) "data.csv").fst :=
  ⟨(csv2df_guard (fun _ => false) (fun _ => true) "data.csv").1 rfl,
    ((csv2df_guard (fun _ => true) (fun _ => true) "data.csv").2 rfl).2⟩
